import Mathlib

/-!
Verification of the reminder-bot core (`bot.py`): persistent reminder store,
module initialization, fixed-timezone time arithmetic, the conversational
state machine and the dispatch scheduler, shallowly embedded in Lean.

Times are modelled as natural numbers counting minutes; one day is 1440
minutes.  The store is a list of rows plus the next SERIAL id, mirroring the
`reminders` table created in `init_db`.
-/

/-- Repeat kind of a reminder: the four values stored in the `repeat` TEXT
column (`REPEAT_TYPES` keys in `bot.py`). -/
inductive RepeatKind where
  | none
  | daily
  | weekly
  | monthly
deriving DecidableEq, Repr

/-- One row of the `reminders` table (`init_db` in `bot.py`): SERIAL id,
user id, message text, due time, repeat kind. -/
structure Reminder where
  id : Nat
  user_id : Nat
  message : String
  remind_time : Nat
  repeatKind : RepeatKind
deriving DecidableEq, Repr

/-- The `reminders` table: its rows plus the next value of the SERIAL
`id` sequence. -/
structure Store where
  rows : List Reminder
  nextId : Nat
deriving DecidableEq, Repr

/-- Embeds `save_reminder` of `bot.py`: INSERT a row (the store assigns the SERIAL
id); the Python function has no return statement, so the caller receives
`None`, modelled as the `Option.none` second component. -/
def save_reminder (s : Store) (u : Nat) (msg : String) (t : Nat)
    (k : RepeatKind) : Store × Option Nat :=
  ({ rows := s.rows ++ [⟨s.nextId, u, msg, t, k⟩], nextId := s.nextId + 1 },
   Option.none)

/-- Embeds `delete_reminder_by_id` of `bot.py`: DELETE FROM reminders WHERE id = $1. -/
def delete_reminder_by_id (s : Store) (rid : Nat) : Store :=
  { rows := s.rows.filter (fun r => r.id != rid), nextId := s.nextId }

/-- All rows with `remind_time <= now` (the scheduler's due query). -/
def listDue (now : Nat) (s : Store) : List Reminder :=
  s.rows.filter (fun r => decide (r.remind_time ≤ now))

/-- Store well-formedness: every row id is below the SERIAL counter (hence
ids of inserted rows are fresh). -/
def storeWF (s : Store) : Prop :=
  ∀ r ∈ s.rows, r.id < s.nextId

/-! ## Time arithmetic in the fixed offset

`bot.py` line 14 fixes `MOSCOW_TZ = timezone(timedelta(hours=3))`; we count
the offset in minutes.  Wall-clock times are minutes since an epoch, a day is
1440 minutes. -/

/-- Embeds `MOSCOW_TZ` of `bot.py`: the fixed UTC+3 offset, in minutes. -/
def MOSCOW_TZ : Nat := 3 * 60

/-- Modelled from the spec: "a single fixed offset is used for all users" —
the offset the system applies when parsing or displaying a time for a given
user does not depend on the user and is always `MOSCOW_TZ`. -/
def tzOffsetFor (_u : Nat) : Nat := MOSCOW_TZ

/-- Convert a UTC timestamp (minutes) to the wall clock used for user `u`. -/
def toLocal (utcMin u : Nat) : Nat := utcMin + tzOffsetFor u

/-- Today's occurrence (relative to local time `now`) of wall-clock `h:m`. -/
def todayAt (now h m : Nat) : Nat := 1440 * (now / 1440) + (60 * h + m)

/-- Modelled from the spec: the `awaitingTime` step computes "the next
occurrence of that wall-clock time at or after now": today's occurrence,
rolled forward one day when it is not strictly in the future. -/
def computeDueAt (now h m : Nat) : Nat :=
  if todayAt now h m ≤ now then todayAt now h m + 1440 else todayAt now h m

/-- Split a character list at its unique `:`; fails when there is no colon
or more than one. -/
def splitColon : List Char → Option (List Char × List Char)
  | [] => Option.none
  | c :: rest =>
      if c = ':' then
        if rest.contains ':' then Option.none else some ([], rest)
      else
        match splitColon rest with
        | some (a, b) => some (c :: a, b)
        | Option.none => Option.none

/-- Decimal value of a digit string. -/
def digitsVal (cs : List Char) : Nat :=
  cs.foldl (fun a c => a * 10 + (c.toNat - 48)) 0

/-- Parse a non-empty all-digit character list as a natural number. -/
def parseNatDigits (cs : List Char) : Option Nat :=
  if cs ≠ [] ∧ cs.all (fun c => c.isDigit) then some (digitsVal cs)
  else Option.none

/-- Modelled from the spec: the `awaitingTime` step parses the input as
`HH:MM` with hour 0–23 and minute 0–59, rejecting wrong shapes, non-numeric
parts and out-of-range values. -/
def parseHHMM (s : String) : Option (Nat × Nat) :=
  match splitColon s.data with
  | some (hs, ms) =>
      match parseNatDigits hs, parseNatDigits ms with
      | some h, some m =>
          if h ≤ 23 ∧ m ≤ 59 then some (h, m) else Option.none
      | _, _ => Option.none
  | Option.none => Option.none

/-- Modelled from the spec: the RecurrenceCalculator `next(now, repeatKind)`
— one day for daily, seven days for weekly, thirty days for monthly, and no
next occurrence for `none`. -/
def nextOccur (now : Nat) : RepeatKind → Option Nat
  | RepeatKind.daily => some (now + 1440)
  | RepeatKind.weekly => some (now + 7 * 1440)
  | RepeatKind.monthly => some (now + 30 * 1440)
  | RepeatKind.none => Option.none

/-! ## Module initialization (`bot.py` lines 19–29)

`TOKEN = os.getenv("BOT_TOKEN")`, `DATABASE_URL = os.getenv("DATABASE_URL")`;
`if not TOKEN: raise ValueError(...)`, `if not DATABASE_URL: raise
ValueError(...)`; only afterwards is `Bot(token=TOKEN)` constructed.  Python
`not s` is true for a missing (`None`) or empty string value. -/

/-- The bot/dispatcher configuration reached only when both environment
variables validate. -/
structure ModuleState where
  token : String
  databaseUrl : String
deriving DecidableEq, Repr

/-- Python truthiness of an optional environment-variable string. -/
def pyTruthy : Option String → Bool
  | Option.none => false
  | some s => !(s == "")

/-- Module-level initialization of `bot.py`: validate `BOT_TOKEN` then
`DATABASE_URL`, raising `ValueError` on a falsy value; otherwise construct
the bot configuration. -/
def moduleInit (tok db : Option String) : Except String ModuleState :=
  if !(pyTruthy tok) then Except.error "BOT_TOKEN not set"
  else if !(pyTruthy db) then Except.error "DATABASE_URL not set"
  else Except.ok ⟨tok.getD "", db.getD ""⟩

/-! ## Conversation state machine (modelled from the spec, §4.1)

The per-user dialog state lives in the module-level `user_state` dictionary
of `bot.py` (`{user_id: {"step": ..., "data": ...}}`); the handler code that
drives it is modelled from the spec. -/

/-- The dialog step stored under `"step"` in `user_state`. -/
inductive Step where
  | awaitingText
  | awaitingTime
  | awaitingRepeat
deriving DecidableEq, Repr

/-- An in-progress draft: current step plus the fields collected so far. -/
structure Draft where
  step : Step
  draftText : String
  draftDueAt : Nat
deriving DecidableEq, Repr

/-- Incoming user events (spec §6): start a reminder, free text, a repeat
selection, cancel. -/
inductive Event where
  | start
  | text (s : String)
  | repeatChoice (k : RepeatKind)
  | cancel
deriving DecidableEq, Repr

/-- Outbound messages the machine emits. -/
inductive Output where
  | promptText (u : Nat)
  | rejectEmptyText (u : Nat)
  | promptTime (u : Nat)
  | rejectBadTime (u : Nat)
  | promptRepeat (u : Nat)
  | confirm (u : Nat) (text : String) (dueAt : Nat) (k : RepeatKind)
  | expiredSession (u : Nat)
  | cancelled (u : Nat)
deriving DecidableEq, Repr

/-- Whitespace stripped by Python's `str.strip()`. -/
def isSpace (c : Char) : Bool :=
  c = ' ' || c = '\t' || c = '\n' || c = '\r'

/-- Python `str.strip()`: drop whitespace from both ends. -/
def pyStrip (s : String) : String :=
  ⟨((s.data.dropWhile isSpace).reverse.dropWhile isSpace).reverse⟩

/-- Dictionary lookup in the `user_state` map. -/
def lookupState : List (Nat × Draft) → Nat → Option Draft
  | [], _ => Option.none
  | (v, d) :: rest, u => if v = u then some d else lookupState rest u

/-- Dictionary update: bind `u` to `d`, discarding any previous entry. -/
def setState (l : List (Nat × Draft)) (u : Nat) (d : Draft) :
    List (Nat × Draft) :=
  (u, d) :: l.filter (fun p => p.1 != u)

/-- Dictionary removal: drop the entry for `u`. -/
def removeState (l : List (Nat × Draft)) (u : Nat) : List (Nat × Draft) :=
  l.filter (fun p => p.1 != u)

/-- The process state the conversation layer touches: the `user_state` map
and the reminder store. -/
structure SysState where
  user_state : List (Nat × Draft)
  store : Store
deriving DecidableEq, Repr

/-- Modelled from the spec: the ConversationStateMachine transition (§4.1) —
the message/callback handlers of the bot.  `now` is the current UTC time in
minutes; times shown to the user are in the fixed offset. -/
def handleEvent (now u : Nat) (e : Event) (σ : SysState) :
    SysState × List Output :=
  match e with
  | Event.start =>
      ({ σ with user_state := (setState σ.user_state u
          ⟨Step.awaitingText, "", 0⟩) },
       [Output.promptText u])
  | Event.text s =>
      match lookupState σ.user_state u with
      | Option.none => (σ, [])
      | some d =>
          match d.step with
          | Step.awaitingText =>
              if pyStrip s = "" then (σ, [Output.rejectEmptyText u])
              else
                ({ σ with user_state := (setState σ.user_state u
                      ⟨Step.awaitingTime, pyStrip s, 0⟩) },
                 [Output.promptTime u])
          | Step.awaitingTime =>
              match parseHHMM s with
              | Option.none => (σ, [Output.rejectBadTime u])
              | some (h, m) =>
                  ({ σ with user_state := (setState σ.user_state u
                        ⟨Step.awaitingRepeat, d.draftText,
                          computeDueAt (toLocal now u) h m⟩) },
                   [Output.promptRepeat u])
          | Step.awaitingRepeat => (σ, [])
  | Event.repeatChoice k =>
      match lookupState σ.user_state u with
      | some d =>
          match d.step with
          | Step.awaitingRepeat =>
              ({ user_state := removeState σ.user_state u,
                 store := (save_reminder σ.store u d.draftText
                   d.draftDueAt k).1 },
               [Output.confirm u d.draftText d.draftDueAt k])
          | _ => (σ, [Output.expiredSession u])
      | Option.none => (σ, [Output.expiredSession u])
  | Event.cancel =>
      ({ σ with user_state := removeState σ.user_state u },
       [Output.cancelled u])

/-! ## Dispatch scheduler (modelled from the spec, §4.2) -/

/-- Modelled from the spec: processing of one due reminder during a scan —
attempt delivery (outcome `deliver r.id` is logged but never blocks
anything), delete the fired row, and re-insert the next occurrence when the
reminder repeats. -/
def scanStep (now : Nat) (deliver : Nat → Bool)
    (acc : Store × List (Nat × Bool)) (r : Reminder) :
    Store × List (Nat × Bool) :=
  let log := acc.2 ++ [(r.id, deliver r.id)]
  let s1 := delete_reminder_by_id acc.1 r.id
  match nextOccur now r.repeatKind with
  | some t =>
      ((save_reminder s1 r.user_id r.message t r.repeatKind).1, log)
  | Option.none => (s1, log)

/-- Modelled from the spec: one scheduler scan — fetch every due row and
process each; returns the final store and the delivery-attempt log. -/
def scan (now : Nat) (deliver : Nat → Bool) (s : Store) :
    Store × List (Nat × Bool) :=
  (listDue now s).foldl (scanStep now deliver) (s, [])

/-- Non-empty message text of every stored row (spec §3 invariant). -/
def storeTextsOk (s : Store) : Prop :=
  ∀ r ∈ s.rows, r.message ≠ ""

/-- Every draft past `awaitingText` carries non-empty text. -/
def draftsOk (l : List (Nat × Draft)) : Prop :=
  ∀ p ∈ l, p.2.step ≠ Step.awaitingText → p.2.draftText ≠ ""

/-- The non-empty-text system invariant of spec §3. -/
def invariantNonEmpty (σ : SysState) : Prop :=
  storeTextsOk σ.store ∧ draftsOk σ.user_state

/-- User-owned rows of the store, per the scenario queries of spec §8. -/
def uRows (u : Nat) (s : Store) : List Reminder :=
  s.rows.filter (fun r => r.user_id == u)

/-- C4: deleting the same id twice equals deleting it once. -/
theorem delete_reminder_by_id_idem (s : Store) (rid : Nat) :
    delete_reminder_by_id (delete_reminder_by_id s rid) rid =
      delete_reminder_by_id s rid := by
  simp [delete_reminder_by_id, List.filter_filter]

/-- C10: `delete_reminder_by_id` only touches the row with the given id:
any row with a different id keeps its exact multiplicity in the store. -/
theorem delete_reminder_by_id_frame (s : Store) (rid : Nat) (r : Reminder)
    (h : r.id ≠ rid) :
    (delete_reminder_by_id s rid).rows.count r = s.rows.count r := by
  unfold delete_reminder_by_id
  induction s.rows with
  | nil => rfl
  | cons x xs ih =>
      by_cases hx : x.id = rid
      · have hxr : r ≠ x := fun he => h (by rw [he]; exact hx)
        simp [List.filter_cons, hx, List.count_cons, ih, hxr]
      · simp [List.filter_cons, hx, List.count_cons, ih]

/-- C10 witness: a concrete row with a different id survives deletion
unchanged. -/
theorem delete_reminder_by_id_frame_witness :
    (delete_reminder_by_id
        ⟨[⟨1, 7, "call mom", 30, RepeatKind.none⟩], 2⟩ 5).rows.count
        ⟨1, 7, "call mom", 30, RepeatKind.none⟩ =
      (⟨[⟨1, 7, "call mom", 30, RepeatKind.none⟩], 2⟩ : Store).rows.count
        ⟨1, 7, "call mom", 30, RepeatKind.none⟩ :=
  delete_reminder_by_id_frame _ 5 _ (by decide)

/-- C6 counterexample: on an empty store (SERIAL counter 1) the inserted row
is assigned id 1, yet `save_reminder` returns `None` — not the identifier. -/
theorem save_reminder_returns_none :
    ((save_reminder ⟨[], 1⟩ 42 "buy milk" 540 RepeatKind.none).1.rows.map
        (fun r => r.id) = [1]) ∧
      (save_reminder ⟨[], 1⟩ 42 "buy milk" 540 RepeatKind.none).2 =
        Option.none := by
  constructor <;> rfl

/-- C6 (amended): `save_reminder` inserts exactly one new row carrying the
given fields, the store assigns it the fresh SERIAL id (distinct from every
existing row id), and the function returns `None` rather than that id. -/
theorem save_reminder_assigns_fresh_id (s : Store) (u : Nat) (msg : String)
    (t : Nat) (k : RepeatKind) (hwf : storeWF s) :
    ((save_reminder s u msg t k).1.rows =
        s.rows ++ [⟨s.nextId, u, msg, t, k⟩]) ∧
      (∀ r ∈ s.rows, r.id ≠ s.nextId) ∧
      (save_reminder s u msg t k).2 = Option.none := by
  refine ⟨rfl, ?_, rfl⟩
  intro r hr
  exact Nat.ne_of_lt (hwf r hr)

/-- C6 (amended) witness at a concrete, well-formed store. -/
theorem save_reminder_assigns_fresh_id_witness :
    ((save_reminder ⟨[⟨1, 7, "a", 5, RepeatKind.daily⟩], 2⟩ 9 "b" 8
          RepeatKind.weekly).1.rows =
        [⟨1, 7, "a", 5, RepeatKind.daily⟩] ++
          [⟨2, 9, "b", 8, RepeatKind.weekly⟩]) ∧
      (∀ r ∈ ([⟨1, 7, "a", 5, RepeatKind.daily⟩] : List Reminder),
        r.id ≠ 2) ∧
      (save_reminder ⟨[⟨1, 7, "a", 5, RepeatKind.daily⟩], 2⟩ 9 "b" 8
          RepeatKind.weekly).2 = Option.none :=
  save_reminder_assigns_fresh_id ⟨[⟨1, 7, "a", 5, RepeatKind.daily⟩], 2⟩
    9 "b" 8 RepeatKind.weekly (by intro r hr; simp at hr; simp [hr])

/-- A successful parse always yields an in-range hour and minute. -/
theorem parseHHMM_range {s : String} {h m : Nat}
    (hp : parseHHMM s = some (h, m)) : h ≤ 23 ∧ m ≤ 59 := by
  unfold parseHHMM at hp
  split at hp
  · split at hp
    · split at hp
      · injection hp with hpm
        injection hpm with h1 h2
        subst h1
        subst h2
        assumption
      · cases hp
    · cases hp
  · cases hp

/-- The computed due time: strictly after `now`, with the requested
time-of-day, today when still ahead, else exactly one day later. -/
theorem computeDueAt_spec (now h m : Nat) (hh : h ≤ 23) (hm : m ≤ 59) :
    now < computeDueAt now h m ∧
      computeDueAt now h m % 1440 = 60 * h + m ∧
      (now < todayAt now h m → computeDueAt now h m = todayAt now h m) ∧
      (todayAt now h m ≤ now →
        computeDueAt now h m = todayAt now h m + 1440) := by
  unfold computeDueAt todayAt
  split <;> omega

/-- C2: daily adds one day, weekly exactly seven days, monthly a fixed
thirty days; three successive weekly firings land exactly 7, 14 and 21 days
after the anchor, so repeated application drifts by nothing. -/
theorem nextOccur_spec (now : Nat) :
    nextOccur now RepeatKind.daily = some (now + 1 * 1440) ∧
      nextOccur now RepeatKind.weekly = some (now + 7 * 1440) ∧
      nextOccur now RepeatKind.monthly = some (now + 30 * 1440) ∧
      ((nextOccur now RepeatKind.weekly).bind
          (fun t => nextOccur t RepeatKind.weekly)).bind
          (fun t => nextOccur t RepeatKind.weekly) =
        some (now + 21 * 1440) := by
  refine ⟨by simp [nextOccur], rfl, rfl, ?_⟩
  simp [nextOccur]

/-- C8: time conversion for every user uses the one fixed offset
`MOSCOW_TZ` = UTC+3 (180 minutes); no user gets a different offset. -/
theorem tzOffset_fixed (u u' t : Nat) :
    tzOffsetFor u = MOSCOW_TZ ∧ MOSCOW_TZ = 180 ∧
      toLocal t u = t + 180 ∧ tzOffsetFor u = tzOffsetFor u' :=
  ⟨rfl, rfl, rfl, rfl⟩

/-- C9: when either variable is unset or empty, initialization raises
(`Except.error`) and no `ModuleState` (bot/store/scheduler configuration)
is ever produced. -/
theorem moduleInit_requires_env (tok db : Option String)
    (h : tok = Option.none ∨ tok = some "" ∨ db = Option.none ∨
      db = some "") :
    (∃ msg, moduleInit tok db = Except.error msg) ∧
      ∀ ms, moduleInit tok db ≠ Except.ok ms := by
  have hfalse : pyTruthy tok = false ∨ pyTruthy db = false := by
    rcases h with h | h | h | h <;> subst h <;> simp [pyTruthy]
  have herr : ∃ msg, moduleInit tok db = Except.error msg := by
    rcases hfalse with hf | hf
    · exact ⟨"BOT_TOKEN not set", by simp [moduleInit, hf]⟩
    · cases htok2 : pyTruthy tok
      · exact ⟨"BOT_TOKEN not set", by simp [moduleInit, htok2]⟩
      · exact ⟨"DATABASE_URL not set", by simp [moduleInit, htok2, hf]⟩
  refine ⟨herr, ?_⟩
  rcases herr with ⟨msg, hmsg⟩
  intro ms hok
  rw [hmsg] at hok
  cases hok

/-- C9 witness: with `BOT_TOKEN` missing (and a database URL present),
initialization errors out. -/
theorem moduleInit_requires_env_witness :
    (∃ msg, moduleInit Option.none (some "postgres://x") =
        Except.error msg) ∧
      ∀ ms, moduleInit Option.none (some "postgres://x") ≠ Except.ok ms :=
  moduleInit_requires_env Option.none (some "postgres://x") (Or.inl rfl)

/-! ## State-machine lemmas -/

/-- Looking up the key just set returns the new draft. -/
theorem lookupState_setState (l : List (Nat × Draft)) (u : Nat) (d : Draft) :
    lookupState (setState l u d) u = some d := by
  simp [setState, lookupState]

/-- A successful lookup exposes a matching entry of the map. -/
theorem lookupState_mem {l : List (Nat × Draft)} {u : Nat} {d : Draft}
    (h : lookupState l u = some d) : (u, d) ∈ l := by
  induction l with
  | nil => cases h
  | cons p rest ih =>
      obtain ⟨v, d'⟩ := p
      unfold lookupState at h
      by_cases hv : v = u
      · subst hv
        simp at h
        subst h
        exact List.mem_cons_self _ _
      · simp [hv] at h
        exact List.mem_cons_of_mem _ (ih h)

/-- Membership after a map update: the new binding or an old one. -/
theorem mem_setState {l : List (Nat × Draft)} {u : Nat} {d : Draft}
    {p : Nat × Draft} (hp : p ∈ setState l u d) : p = (u, d) ∨ p ∈ l := by
  simp only [setState, List.mem_cons] at hp
  rcases hp with hp | hp
  · exact Or.inl hp
  · exact Or.inr (List.mem_filter.1 hp).1

/-- Removing an entry keeps the draft discipline. -/
theorem draftsOk_removeState {l : List (Nat × Draft)} (h : draftsOk l)
    (u : Nat) : draftsOk (removeState l u) := by
  intro p hp
  exact h p (List.mem_filter.1 hp).1

/-- Deletion keeps every remaining message intact. -/
theorem storeTextsOk_delete {s : Store} (h : storeTextsOk s) (rid : Nat) :
    storeTextsOk (delete_reminder_by_id s rid) := by
  intro r hr
  exact h r (List.mem_filter.1 hr).1

/-- Inserting a non-empty message keeps all messages non-empty. -/
theorem storeTextsOk_save {s : Store} {u t : Nat} {msg : String}
    {k : RepeatKind} (h : storeTextsOk s) (hm : msg ≠ "") :
    storeTextsOk (save_reminder s u msg t k).1 := by
  intro r hr
  simp only [save_reminder, List.mem_append, List.mem_singleton] at hr
  rcases hr with hr | hr
  · exact h r hr
  · subst hr
    exact hm

/-- C7: a repeat-choice event finding no draft in `awaitingRepeat` for the
user is rejected as an expired session: the state is untouched, nothing is
persisted, and the only output is the expiry notice. -/
theorem repeatChoice_expired (now u : Nat) (k : RepeatKind) (σ : SysState)
    (hg : ∀ d, lookupState σ.user_state u = some d →
      d.step ≠ Step.awaitingRepeat) :
    handleEvent now u (Event.repeatChoice k) σ =
      (σ, [Output.expiredSession u]) := by
  cases hlk : lookupState σ.user_state u with
  | none => simp [handleEvent, hlk]
  | some d =>
      have hd := hg d hlk
      cases hstep : d.step with
      | awaitingText => simp [handleEvent, hlk, hstep]
      | awaitingTime => simp [handleEvent, hlk, hstep]
      | awaitingRepeat => exact absurd hstep hd

/-- C7 witness: after a restart (empty `user_state`), a repeat choice only
yields the expired-session notice. -/
theorem repeatChoice_expired_witness :
    handleEvent 100 5 (Event.repeatChoice RepeatKind.daily)
        ⟨[], ⟨[], 1⟩⟩ =
      (⟨[], ⟨[], 1⟩⟩, [Output.expiredSession 5]) :=
  repeatChoice_expired 100 5 RepeatKind.daily ⟨[], ⟨[], 1⟩⟩
    (fun d hd => by cases hd)

/-- C1: an `HH:MM` input accepted in `awaitingTime` advances the draft to
`awaitingRepeat` with a due time that is strictly after the current (local)
time, has exactly the requested time-of-day, stays today while that
time-of-day is still ahead, and otherwise rolls forward exactly one day. -/
theorem awaitingTime_accept (now u : Nat) (s : String) (h m : Nat)
    (σ : SysState) (d : Draft)
    (hlk : lookupState σ.user_state u = some d)
    (hstep : d.step = Step.awaitingTime)
    (hp : parseHHMM s = some (h, m)) :
    lookupState (handleEvent now u (Event.text s) σ).1.user_state u =
        some ⟨Step.awaitingRepeat, d.draftText,
          computeDueAt (toLocal now u) h m⟩ ∧
      toLocal now u < computeDueAt (toLocal now u) h m ∧
      computeDueAt (toLocal now u) h m % 1440 = 60 * h + m ∧
      (toLocal now u < todayAt (toLocal now u) h m →
        computeDueAt (toLocal now u) h m = todayAt (toLocal now u) h m) ∧
      (todayAt (toLocal now u) h m ≤ toLocal now u →
        computeDueAt (toLocal now u) h m =
          todayAt (toLocal now u) h m + 1440) := by
  obtain ⟨hh, hm⟩ := parseHHMM_range hp
  have hd := computeDueAt_spec (toLocal now u) h m hh hm
  refine ⟨?_, hd.1, hd.2.1, hd.2.2.1, hd.2.2.2⟩
  simp [handleEvent, hlk, hstep, hp, lookupState_setState]

/-- C1 witness: at 10:00 UTC (13:00 local) the input "09:30" is accepted and
scheduled for 09:30 tomorrow, strictly in the future. -/
theorem awaitingTime_accept_witness :
    lookupState (handleEvent 600 5 (Event.text "09:30")
          ⟨[(5, ⟨Step.awaitingTime, "buy milk", 0⟩)], ⟨[], 1⟩⟩).1.user_state
        5 =
        some ⟨Step.awaitingRepeat, "buy milk",
          computeDueAt (toLocal 600 5) 9 30⟩ ∧
      toLocal 600 5 < computeDueAt (toLocal 600 5) 9 30 ∧
      computeDueAt (toLocal 600 5) 9 30 % 1440 = 60 * 9 + 30 ∧
      (toLocal 600 5 < todayAt (toLocal 600 5) 9 30 →
        computeDueAt (toLocal 600 5) 9 30 = todayAt (toLocal 600 5) 9 30) ∧
      (todayAt (toLocal 600 5) 9 30 ≤ toLocal 600 5 →
        computeDueAt (toLocal 600 5) 9 30 =
          todayAt (toLocal 600 5) 9 30 + 1440) :=
  awaitingTime_accept 600 5 "09:30" 9 30
    ⟨[(5, ⟨Step.awaitingTime, "buy milk", 0⟩)], ⟨[], 1⟩⟩
    ⟨Step.awaitingTime, "buy milk", 0⟩ rfl rfl (by decide)

/-- The scan's foldl keeps every stored message non-empty when every
processed reminder has non-empty text. -/
theorem scanFold_texts (now : Nat) (deliver : Nat → Bool)
    (l : List Reminder) :
    ∀ (st : Store) (log : List (Nat × Bool)), storeTextsOk st →
      (∀ r ∈ l, r.message ≠ "") →
      storeTextsOk (l.foldl (scanStep now deliver) (st, log)).1 := by
  induction l with
  | nil => intro st log hst _; exact hst
  | cons x xs ih =>
      intro st log hst hl
      rw [List.foldl_cons]
      have hx : x.message ≠ "" := hl x (List.mem_cons_self _ _)
      have hstep : storeTextsOk (scanStep now deliver (st, log) x).1 := by
        simp only [scanStep]
        cases hno : nextOccur now x.repeatKind with
        | none => exact storeTextsOk_delete hst _
        | some t =>
            exact storeTextsOk_save (storeTextsOk_delete hst _) hx
      exact ih (scanStep now deliver (st, log) x).1
        (scanStep now deliver (st, log) x).2 hstep
        (fun r hr => hl r (List.mem_cons_of_mem _ hr))

/-- C5: neither a state-machine event (in particular a commit) nor a
scheduler scan can put an empty-text row into the store: the non-empty-text
invariant is preserved by every operation of the system. -/
theorem nonEmptyText_invariant_preserved (now u : Nat) (e : Event)
    (σ : SysState) (deliver : Nat → Bool) (hinv : invariantNonEmpty σ) :
    invariantNonEmpty (handleEvent now u e σ).1 ∧
      storeTextsOk (scan now deliver σ.store).1 := by
  obtain ⟨hstore, hdrafts⟩ := hinv
  constructor
  case right =>
    unfold scan
    exact scanFold_texts now deliver (listDue now σ.store) σ.store []
      hstore (fun r hr => hstore r (List.mem_filter.1 hr).1)
  case left =>
    cases e with
    | start =>
        refine ⟨hstore, ?_⟩
        intro p hp hstep
        rcases mem_setState hp with hp | hp
        · rw [hp] at hstep
          exact absurd rfl hstep
        · exact hdrafts p hp hstep
    | text s =>
        cases hlk : lookupState σ.user_state u with
        | none =>
            simp only [handleEvent, hlk]
            exact ⟨hstore, hdrafts⟩
        | some d =>
            cases hstep : d.step with
            | awaitingText =>
                by_cases hs : pyStrip s = ""
                · simp only [handleEvent, hlk, hstep, if_pos hs]
                  exact ⟨hstore, hdrafts⟩
                · simp only [handleEvent, hlk, hstep, if_neg hs]
                  refine ⟨hstore, ?_⟩
                  intro p hp hpstep
                  rcases mem_setState hp with hp | hp
                  · rw [hp]
                    exact hs
                  · exact hdrafts p hp hpstep
            | awaitingTime =>
                cases hp : parseHHMM s with
                | none =>
                    simp only [handleEvent, hlk, hstep, hp]
                    exact ⟨hstore, hdrafts⟩
                | some hm =>
                    obtain ⟨h, m⟩ := hm
                    simp only [handleEvent, hlk, hstep, hp]
                    refine ⟨hstore, ?_⟩
                    intro p hpm hpstep
                    rcases mem_setState hpm with hpm | hpm
                    · rw [hpm]
                      exact hdrafts (u, d) (lookupState_mem hlk)
                        (by rw [hstep]; intro hc; cases hc)
                    · exact hdrafts p hpm hpstep
            | awaitingRepeat =>
                simp only [handleEvent, hlk, hstep]
                exact ⟨hstore, hdrafts⟩
    | repeatChoice k =>
        cases hlk : lookupState σ.user_state u with
        | none =>
            simp only [handleEvent, hlk]
            exact ⟨hstore, hdrafts⟩
        | some d =>
            cases hstep : d.step with
            | awaitingText =>
                simp only [handleEvent, hlk, hstep]
                exact ⟨hstore, hdrafts⟩
            | awaitingTime =>
                simp only [handleEvent, hlk, hstep]
                exact ⟨hstore, hdrafts⟩
            | awaitingRepeat =>
                simp only [handleEvent, hlk, hstep]
                refine ⟨?_, draftsOk_removeState hdrafts u⟩
                refine storeTextsOk_save hstore ?_
                exact hdrafts (u, d) (lookupState_mem hlk)
                  (by rw [hstep]; intro hc; cases hc)
    | cancel =>
        exact ⟨hstore, draftsOk_removeState hdrafts u⟩

/-- C5 witness: the invariant holds after a `start` event and a scan on the
empty system. -/
theorem nonEmptyText_invariant_preserved_witness :
    invariantNonEmpty (handleEvent 0 5 Event.start ⟨[], ⟨[], 1⟩⟩).1 ∧
      storeTextsOk (scan 0 (fun _ => true) (⟨[], 1⟩ : Store)).1 :=
  nonEmptyText_invariant_preserved 0 5 Event.start ⟨[], ⟨[], 1⟩⟩
    (fun _ => true)
    ⟨fun r hr => absurd hr (List.not_mem_nil r),
     fun p hp => absurd hp (List.not_mem_nil p)⟩

/-- The scan log records exactly one delivery attempt per processed row, in
order, whatever the delivery outcomes are. -/
theorem scanFold_log (now : Nat) (deliver : Nat → Bool)
    (l : List Reminder) :
    ∀ (st : Store) (log : List (Nat × Bool)),
      (l.foldl (scanStep now deliver) (st, log)).2 =
        log ++ l.map (fun r => (r.id, deliver r.id)) := by
  induction l with
  | nil => intro st log; simp
  | cons x xs ih =>
      intro st log
      rw [List.foldl_cons]
      have hpair : scanStep now deliver (st, log) x =
          ((scanStep now deliver (st, log) x).1,
            log ++ [(x.id, deliver x.id)]) := by
        simp only [scanStep]
        cases nextOccur now x.repeatKind <;> rfl
      rw [hpair, ih]
      simp

/-- Deleting by id commutes with restricting to one user's rows. -/
theorem uRows_delete (u : Nat) (s : Store) (rid : Nat) :
    uRows u (delete_reminder_by_id s rid) =
      (uRows u s).filter (fun y => y.id != rid) := by
  unfold uRows delete_reminder_by_id
  exact List.filter_comm _ _ _

/-- Inserting a row for a different user leaves this user's rows alone. -/
theorem uRows_save_other (u v : Nat) (s : Store) (msg : String) (t : Nat)
    (k : RepeatKind) (hv : (v == u) = false) :
    uRows u (save_reminder s v msg t k).1 = uRows u s := by
  unfold uRows save_reminder
  simp [List.filter_append, hv]

/-- Effect of processing one due reminder on a user whose reminders never
repeat: only a deletion of that row's id is visible to the user. -/
theorem uRows_scanStep (now : Nat) (deliver : Nat → Bool) (u : Nat)
    (st : Store) (log : List (Nat × Bool)) (x : Reminder)
    (hx : x.user_id = u → x.repeatKind = RepeatKind.none) :
    uRows u (scanStep now deliver (st, log) x).1 =
      (uRows u st).filter (fun y => y.id != x.id) := by
  simp only [scanStep]
  cases hno : nextOccur now x.repeatKind with
  | none => exact uRows_delete u st x.id
  | some t =>
      have hxu : (x.user_id == u) = false := by
        rw [beq_eq_false_iff_ne]
        intro hxx
        rw [hx hxx] at hno
        cases hno
      rw [uRows_save_other u x.user_id _ _ _ _ hxu]
      exact uRows_delete u st x.id

/-- A full scan, as seen from a user whose due reminders never repeat:
every processed id is removed from the user's rows and nothing is added. -/
theorem scanFold_uRows (now : Nat) (deliver : Nat → Bool) (u : Nat)
    (l : List Reminder) :
    ∀ (st : Store) (log : List (Nat × Bool)),
      (∀ x ∈ l, x.user_id = u → x.repeatKind = RepeatKind.none) →
      uRows u (l.foldl (scanStep now deliver) (st, log)).1 =
        (uRows u st).filter (fun y => l.all (fun x => y.id != x.id)) := by
  induction l with
  | nil => intro st log _; simp
  | cons x xs ih =>
      intro st log hl
      rw [List.foldl_cons]
      have hx := hl x (List.mem_cons_self _ _)
      have hxs : ∀ z ∈ xs, z.user_id = u → z.repeatKind = RepeatKind.none :=
        fun z hz => hl z (List.mem_cons_of_mem _ hz)
      calc uRows u (xs.foldl (scanStep now deliver)
              (scanStep now deliver (st, log) x)).1
          = (uRows u (scanStep now deliver (st, log) x).1).filter
              (fun y => xs.all (fun z => y.id != z.id)) :=
            ih (scanStep now deliver (st, log) x).1
              (scanStep now deliver (st, log) x).2 hxs
        _ = ((uRows u st).filter (fun y => y.id != x.id)).filter
              (fun y => xs.all (fun z => y.id != z.id)) := by
            rw [uRows_scanStep now deliver u st log x hx]
        _ = (uRows u st).filter
              (fun y => (x :: xs).all (fun z => y.id != z.id)) := by
            rw [List.filter_filter]
            refine List.filter_congr ?_
            intro a _
            rw [List.all_cons, Bool.and_comm]

/-- C3: a scan finding a single due, non-repeating reminder of a user
deletes it whatever the delivery outcome was — the user's rows end empty —
and the delivery log shows exactly one attempt for that row. -/
theorem scan_fires_once_and_deletes (now u : Nat) (deliver : Nat → Bool)
    (s : Store) (r : Reminder)
    (hnodup : (s.rows.map (fun x => x.id)).Nodup)
    (hu : uRows u s = [r])
    (hdue : r.remind_time ≤ now)
    (hrep : r.repeatKind = RepeatKind.none) :
    uRows u (scan now deliver s).1 = [] ∧
      ((scan now deliver s).2.map Prod.fst).count r.id = 1 := by
  have hruRows : r ∈ uRows u s := by
    rw [hu]
    exact List.mem_singleton_self r
  have hrrows : r ∈ s.rows := (List.mem_filter.1 hruRows).1
  have hld : r ∈ listDue now s := by
    unfold listDue
    exact List.mem_filter.2 ⟨hrrows, by simpa using hdue⟩
  have huniq : ∀ x ∈ listDue now s, x.user_id = u →
      x.repeatKind = RepeatKind.none := by
    intro x hx hxu
    have hxr : x ∈ uRows u s := by
      unfold uRows
      refine List.mem_filter.2 ⟨?_, by simpa using hxu⟩
      exact (List.mem_filter.1 hx).1
    rw [hu] at hxr
    rw [List.mem_singleton.1 hxr]
    exact hrep
  constructor
  · unfold scan
    rw [scanFold_uRows now deliver u (listDue now s) s [] huniq, hu]
    have hfalse : (listDue now s).all (fun x => r.id != x.id) = false := by
      cases hall : (listDue now s).all (fun x => r.id != x.id)
      · rfl
      · exfalso
        have := List.all_eq_true.1 hall r hld
        simp at this
    simp [hfalse]
  · have hlog : (scan now deliver s).2 =
        (listDue now s).map (fun x => (x.id, deliver x.id)) := by
      unfold scan
      rw [scanFold_log now deliver (listDue now s) s []]
      simp
    rw [hlog, List.map_map]
    have hmapid : (Prod.fst ∘ fun x : Reminder => (x.id, deliver x.id)) =
        fun x : Reminder => x.id := rfl
    rw [hmapid]
    have hnd : ((listDue now s).map (fun x => x.id)).Nodup := by
      have hsub : List.Sublist (listDue now s) s.rows :=
        List.filter_sublist _
      exact hnodup.sublist (hsub.map (fun x => x.id))
    exact List.count_eq_one_of_mem hnd
      (List.mem_map.2 ⟨r, hld, rfl⟩)

/-- C3 witness: one due non-repeating reminder; after the scan the user has
zero rows and exactly one delivery attempt was logged, even though delivery
failed. -/
theorem scan_fires_once_and_deletes_witness :
    uRows 7 (scan 100 (fun _ => false)
        ⟨[⟨1, 7, "hi", 50, RepeatKind.none⟩], 2⟩).1 = [] ∧
      ((scan 100 (fun _ => false)
          ⟨[⟨1, 7, "hi", 50, RepeatKind.none⟩], 2⟩).2.map
          Prod.fst).count 1 = 1 :=
  scan_fires_once_and_deletes 100 7 (fun _ => false)
    ⟨[⟨1, 7, "hi", 50, RepeatKind.none⟩], 2⟩
    ⟨1, 7, "hi", 50, RepeatKind.none⟩
    (by decide) (by decide) (by decide) rfl
